import Mathlib

/-!
Verification development for the `iita2025` media-script collection.

Python strings are modelled as `List Char`, non-negative float second
values as `ℚ` (exact rational arithmetic; the scripts' float values are
binary approximations, and every concrete value used below is exactly
representable after `datetime.timedelta`'s rounding to whole
microseconds), and each script's interaction with external tools
(moviepy, whisper, ffmpeg, yt-dlp, the file system) as an explicit
environment record describing the outcome of each external call.
-/

/-- Conversion from a Lean string literal to the `List Char` model of a
Python string. -/
def pyStr (s : String) : List Char := s.data

/-- Python's `chr(48 + d)`, the decimal digit character for `d < 10`.
Used to model `str(n)` / `"%0Nd" % n` formatting of `int` values. -/
def digitChar (d : ℕ) : Char := Char.ofNat (48 + d)

/-- Numeric value of a digit character, as used when modelling Python's
`int(...)` and `float(...)` on digit strings. -/
def digitVal (c : Char) : ℕ := c.toNat - 48

/-- Fixed-width base-10 representation: the last `w` decimal digits of
`n`, zero padded, most significant first.  This is the canonical form
used in proofs about Python's `%0Nd`-style formatting. -/
def digitsFix : ℕ → ℕ → List Char
  | 0, _ => []
  | w + 1, n => digitsFix w (n / 10) ++ [digitChar (n % 10)]

/-- Fuel-driven helper for `natDigits`; the fuel always suffices because
`natDigits n` passes `n + 1`. -/
def natDigitsAux : ℕ → ℕ → List Char
  | 0, _ => []
  | f + 1, n =>
    if n < 10 then [digitChar n]
    else natDigitsAux f (n / 10) ++ [digitChar (n % 10)]

/-- Python's `str(n)` for a non-negative `int` `n`: decimal digits, no
leading zeros (with `str(0) = "0"`). -/
def natDigits (n : ℕ) : List Char := natDigitsAux (n + 1) n

/-- Python's `"%0Nd" % n` zero padding (as used by `timedelta.__str__`):
left-pad the decimal representation with `'0'` to width `w`. -/
def padLeft (w : ℕ) (n : ℕ) : List Char :=
  List.replicate (w - (natDigits n).length) '0' ++ natDigits n

/-- Value of a big-endian digit string, the numeric core of Python's
`int(...)`. -/
def natOfDigits (l : List Char) : ℕ := l.foldl (fun a c => 10 * a + digitVal c) 0

/-- Python's `str.split(sep)` for a single-character separator: always
returns at least one (possibly empty) piece. -/
def splitOnChar (sep : Char) : List Char → List (List Char)
  | [] => [[]]
  | c :: rest =>
    let r := splitOnChar sep rest
    if c = sep then [] :: r
    else
      match r with
      | [] => [[c]]
      | h :: t => (c :: h) :: t

/-- Python's `str.replace(a, b)` for single characters `a`, `b`. -/
def mapReplace (a b : Char) (l : List Char) : List Char :=
  l.map fun c => if c = a then b else c

theorem digitVal_digitChar {d : ℕ} (h : d < 10) : digitVal (digitChar d) = d := by
  interval_cases d <;> decide

theorem isDigit_digitChar {d : ℕ} (h : d < 10) : (digitChar d).isDigit = true := by
  interval_cases d <;> decide

theorem digitChar_ne_of_not_digit {d : ℕ} {c : Char} (hd : d < 10)
    (hc : c.isDigit = false) : digitChar d ≠ c := by
  intro h
  have := isDigit_digitChar (d := d) hd
  rw [h, hc] at this
  exact Bool.false_ne_true this

theorem digitsFix_length (w n : ℕ) : (digitsFix w n).length = w := by
  induction w generalizing n with
  | zero => rfl
  | succ w ih => simp [digitsFix, ih]

theorem digitsFix_all_digits (w n : ℕ) :
    ∀ c ∈ digitsFix w n, c.isDigit = true := by
  induction w generalizing n with
  | zero => intro c hc; simp [digitsFix] at hc
  | succ w ih =>
    intro c hc
    simp only [digitsFix, List.mem_append, List.mem_singleton] at hc
    rcases hc with hc | hc
    · exact ih _ c hc
    · subst hc; exact isDigit_digitChar (Nat.mod_lt _ (by norm_num))

theorem digitsFix_succ_of_lt {w n : ℕ} (h : n < 10 ^ w) :
    digitsFix (w + 1) n = '0' :: digitsFix w n := by
  induction w generalizing n with
  | zero =>
    interval_cases n
    decide
  | succ w ih =>
    have hdiv : n / 10 < 10 ^ w := by
      rw [Nat.div_lt_iff_lt_mul (by norm_num)]
      calc n < 10 ^ (w + 1) := h
        _ = 10 ^ w * 10 := by ring
    have : digitsFix (w + 1 + 1) n = digitsFix (w + 1) (n / 10) ++ [digitChar (n % 10)] := rfl
    rw [this, ih hdiv]
    rfl

theorem digitsFix_replicate {w n : ℕ} (k : ℕ) (h : n < 10 ^ w) :
    digitsFix (k + w) n = List.replicate k '0' ++ digitsFix w n := by
  induction k with
  | zero => simp
  | succ k ih =>
    have h1 : n < 10 ^ (k + w) :=
      lt_of_lt_of_le h (Nat.pow_le_pow_right (by norm_num) (by omega))
    have : k + 1 + w = (k + w) + 1 := by omega
    rw [this, digitsFix_succ_of_lt h1, ih]
    rfl

theorem natOfDigits_append_digit (l : List Char) (c : Char) :
    natOfDigits (l ++ [c]) = 10 * natOfDigits l + digitVal c := by
  simp [natOfDigits, List.foldl_append]

theorem natOfDigits_digitsFix (w n : ℕ) : natOfDigits (digitsFix w n) = n % 10 ^ w := by
  induction w generalizing n with
  | zero => simp [digitsFix, natOfDigits, Nat.mod_one]
  | succ w ih =>
    have : digitsFix (w + 1) n = digitsFix w (n / 10) ++ [digitChar (n % 10)] := rfl
    rw [this, natOfDigits_append_digit, ih,
      digitVal_digitChar (Nat.mod_lt _ (by norm_num))]
    rw [pow_succ', Nat.mod_mul]
    omega

theorem natDigitsAux_spec : ∀ f n, n < f →
    ∃ w, 0 < w ∧ n < 10 ^ w ∧ (2 ≤ w → 10 ^ (w - 1) ≤ n) ∧
      natDigitsAux f n = digitsFix w n := by
  intro f
  induction f with
  | zero => intro n hn; omega
  | succ f ih =>
    intro n hn
    by_cases h10 : n < 10
    · refine ⟨1, by norm_num, by simpa using h10, by omega, ?_⟩
      have : digitsFix 1 n = [digitChar (n % 10)] := by simp [digitsFix]
      rw [this, Nat.mod_eq_of_lt h10]
      simp [natDigitsAux, h10]
    · have hdivlt : n / 10 < f := by omega
      obtain ⟨w, hw0, hwlt, hwge, hweq⟩ := ih (n / 10) hdivlt
      refine ⟨w + 1, by omega, ?_, ?_, ?_⟩
      · have : n < 10 * (n / 10) + 10 := by omega
        calc n < 10 * (n / 10) + 10 := this
          _ ≤ 10 * 10 ^ w := by omega
          _ = 10 ^ (w + 1) := (pow_succ' 10 w).symm
      · intro _
        rcases Nat.lt_or_ge w 2 with hw2 | hw2
        · have hw1 : w = 1 := by omega
          subst hw1
          simpa using h10
        · have := hwge hw2
          have h1 : 10 ^ (w - 1) * 10 ≤ (n / 10) * 10 := Nat.mul_le_mul_right _ this
          have h2 : 10 ^ (w - 1) * 10 = 10 ^ w := by
            rw [← pow_succ]
            congr 1
            omega
          have h3 : (n / 10) * 10 ≤ n := by omega
          simp only [Nat.add_sub_cancel]
          omega
      · have step : natDigitsAux (f + 1) n = natDigitsAux f (n / 10) ++ [digitChar (n % 10)] := by
          simp [natDigitsAux, h10]
        rw [step, hweq]
        rfl

theorem natDigits_spec (n : ℕ) :
    ∃ w, 0 < w ∧ n < 10 ^ w ∧ (2 ≤ w → 10 ^ (w - 1) ≤ n) ∧
      natDigits n = digitsFix w n :=
  natDigitsAux_spec (n + 1) n (by omega)

theorem natDigits_of_lt_ten {n : ℕ} (h : n < 10) : natDigits n = [digitChar n] := by
  have : digitsFix 1 n = [digitChar (n % 10)] := by simp [digitsFix]
  simp [natDigits, natDigitsAux, h]

theorem natDigits_all_digits (n : ℕ) : ∀ c ∈ natDigits n, c.isDigit = true := by
  obtain ⟨w, _, _, _, heq⟩ := natDigits_spec n
  rw [heq]
  exact digitsFix_all_digits w n

theorem padLeft_eq_digitsFix {w n : ℕ} (hw : 0 < w) (h : n < 10 ^ w) :
    padLeft w n = digitsFix w n := by
  obtain ⟨w', hw'0, hw'lt, hw'ge, hw'eq⟩ := natDigits_spec n
  have hle : w' ≤ w := by
    by_contra hgt
    push_neg at hgt
    rcases Nat.lt_or_ge w' 2 with h2 | h2
    · omega
    · have := hw'ge h2
      have hpow : 10 ^ w ≤ 10 ^ (w' - 1) :=
        Nat.pow_le_pow_right (by norm_num) (by omega)
      omega
  unfold padLeft
  rw [hw'eq, digitsFix_length]
  rw [← digitsFix_replicate (w - w') hw'lt]
  congr 1
  omega

theorem splitOnChar_ne_nil (sep : Char) (l : List Char) : splitOnChar sep l ≠ [] := by
  cases l with
  | nil => simp [splitOnChar]
  | cons c rest =>
    simp only [splitOnChar]
    by_cases h : c = sep
    · simp [h]
    · simp only [h, if_false]
      rcases splitOnChar sep rest with _ | ⟨h', t'⟩ <;> simp

theorem splitOnChar_sepFree {sep : Char} {a : List Char}
    (h : ∀ c ∈ a, c ≠ sep) : splitOnChar sep a = [a] := by
  induction a with
  | nil => rfl
  | cons c rest ih =>
    have hc : c ≠ sep := h c (by simp)
    have hrest : splitOnChar sep rest = [rest] := ih fun x hx => h x (by simp [hx])
    simp [splitOnChar, hc, hrest]

theorem splitOnChar_append {sep : Char} {a b : List Char}
    (h : ∀ c ∈ a, c ≠ sep) :
    splitOnChar sep (a ++ sep :: b) = a :: splitOnChar sep b := by
  induction a with
  | nil => simp [splitOnChar]
  | cons c rest ih =>
    have hc : c ≠ sep := h c (by simp)
    have hrest := ih fun x hx => h x (by simp [hx])
    simp only [List.cons_append, splitOnChar, hc, if_false, List.append_eq]
    rw [hrest]

theorem mapReplace_of_not_mem {a b : Char} {l : List Char}
    (h : ∀ c ∈ l, c ≠ a) : mapReplace a b l = l := by
  unfold mapReplace
  conv_rhs => rw [← List.map_id l]
  exact List.map_congr_left fun c hc => by simp [h c hc]

theorem mapReplace_append (a b : Char) (l₁ l₂ : List Char) :
    mapReplace a b (l₁ ++ l₂) = mapReplace a b l₁ ++ mapReplace a b l₂ := by
  simp [mapReplace]

theorem digitsFix_take (w₁ w₂ n : ℕ) :
    (digitsFix (w₁ + w₂) n).take w₁ = digitsFix w₁ (n / 10 ^ w₂) := by
  induction w₂ generalizing n with
  | zero => simp [digitsFix_length]
  | succ w₂ ih =>
    have : w₁ + (w₂ + 1) = (w₁ + w₂) + 1 := by omega
    rw [this]
    have step : digitsFix ((w₁ + w₂) + 1) n = digitsFix (w₁ + w₂) (n / 10) ++ [digitChar (n % 10)] := rfl
    rw [step]
    rw [List.take_append_of_le_length (by rw [digitsFix_length]; omega)]
    rw [ih]
    congr 1
    rw [Nat.div_div_eq_div_mul]
    congr 1
    rw [pow_succ']

/-- Python's `int(s)` restricted to unsigned decimal digit strings (the
only shape the SRT code ever passes it; signs, whitespace, underscores
and other `int` syntax never occur there).  Any other string raises
`ValueError`, modelled as `none`.  The value is returned in `ℚ` because
`parse_srt_time` immediately mixes it into float arithmetic. -/
def pyIntQ? (l : List Char) : Option ℚ :=
  if l ≠ [] ∧ l.all Char.isDigit = true then some (natOfDigits l) else none

/-- Python's `float(s)` restricted to unsigned decimal literals with at
most one `'.'` (again the only shape reaching it from the SRT code).
`float("")` and `float("1:2")`-style garbage raise `ValueError`,
modelled as `none`. -/
def pyFloatQ? (l : List Char) : Option ℚ :=
  match splitOnChar '.' l with
  | [ip] =>
    if ip ≠ [] ∧ ip.all Char.isDigit = true then some (natOfDigits ip) else none
  | [ip, fp] =>
    if ip ++ fp ≠ [] ∧ (ip ++ fp).all Char.isDigit = true then
      some ((natOfDigits ip : ℚ) + (natOfDigits fp : ℚ) / 10 ^ fp.length)
    else none
  | _ => none

/-- Python's `str(datetime.timedelta(...))` for a duration of `us`
microseconds with `0 ≤ us < 24 h` (the "N days, " prefix for longer
durations is outside the modelled range): `H:MM:SS` with unpadded hours,
followed by `.ffffff` exactly when the microsecond part is nonzero
(CPython formats `"%d:%02d:%02d"` and appends `".%06d"`). -/
def timedeltaRepr (us : ℕ) : List Char :=
  natDigits (us / 1000000 / 3600) ++ ':' :: padLeft 2 (us / 1000000 % 3600 / 60)
    ++ ':' :: padLeft 2 (us / 1000000 % 60)
    ++ (if us % 1000000 = 0 then [] else '.' :: padLeft 6 (us % 1000000))

/-- Python's `s[:-3]`: drop the last three characters (everything when
the string is shorter than three characters). -/
def dropLast3 (l : List Char) : List Char := l.take (l.length - 3)

/-- Timestamp formatting of `create_srt_file` in
`video_clip_with_captions.py` (lines 64-71) and of `create_srt` in
`extract_audio_and_transcribe.py` / `transcribe_and_caption.py`, which
contain the identical code:
`str(timedelta(seconds=x))[:-3].replace('.', ',')`, then a `'0'` is
prepended when the field before the first `':'` is a single character.
The argument is the timedelta's microsecond total (see `tdMicros`). -/
def create_srt_file_timestamp (us : ℕ) : List Char :=
  let t := mapReplace '.' ',' (dropLast3 (timedeltaRepr us))
  if ((splitOnChar ':' t).headI).length = 1 then '0' :: t else t

/-- Model of `parse_srt_time` from `video_clip_with_captions.py` (lines 136-143):
replace `','` by `'.'`, split on `':'`, read hours and minutes with
`int`, seconds with `float`, and combine.  A missing third field
(`IndexError`) or an unparsable field (`ValueError`) propagates as an
exception, modelled as `none`. -/
def parse_srt_time (l : List Char) : Option ℚ :=
  let t := mapReplace ',' '.' l
  match splitOnChar ':' t with
  | p0 :: p1 :: p2 :: _ =>
    match pyIntQ? p0, pyIntQ? p1, pyFloatQ? p2 with
    | some h, some m, some s => some (h * 3600 + m * 60 + s)
    | _, _, _ => none
  | _ => none

/-- Python's float `%` for a positive right operand (the only use in the
scripts): `a % n = a - n * floor(a / n)`. -/
def pymod (a n : ℚ) : ℚ := a - n * ⌊a / n⌋

/-- Timestamp formatting of `create_srt` in
`transcribe_with_ffmpeg_path.py` (lines 36-37): the f-string
`f"{int(s//3600):02d}:{int((s%3600)//60):02d}:{int(s%60):02d},{int((s%1)*1000):03d}"`.
Python's `int()` truncates toward zero; on the non-negative values
produced here that is the floor. -/
def whisper_srt_timestamp (q : ℚ) : List Char :=
  padLeft 2 (⌊q / 3600⌋.toNat) ++ ':' :: padLeft 2 (⌊pymod q 3600 / 60⌋.toNat)
    ++ ':' :: padLeft 2 (⌊pymod q 60⌋.toNat)
    ++ ',' :: padLeft 3 (⌊pymod q 1 * 1000⌋.toNat)

/-- Microsecond total of `datetime.timedelta(seconds=q)`: Python rounds
the seconds value to a whole number of microseconds.  (CPython rounds
ties to even; Mathlib's `round` agrees at every non-tie value, and the
concrete inputs below are not ties.) -/
def tdMicros (q : ℚ) : ℤ := round (q * 1000000)

theorem digitsFix_ne_char {w n : ℕ} {x : Char} (hx : x.isDigit = false) :
    ∀ c ∈ digitsFix w n, c ≠ x := by
  intro c hc he
  have := digitsFix_all_digits w n c hc
  rw [he, hx] at this
  exact Bool.false_ne_true this

theorem natDigits_ne_char {n : ℕ} {x : Char} (hx : x.isDigit = false) :
    ∀ c ∈ natDigits n, c ≠ x := by
  intro c hc he
  have := natDigits_all_digits n c hc
  rw [he, hx] at this
  exact Bool.false_ne_true this

theorem pyIntQ?_digitsFix {w n : ℕ} (hw : 0 < w) (h : n < 10 ^ w) :
    pyIntQ? (digitsFix w n) = some (n : ℚ) := by
  have hne : digitsFix w n ≠ [] := by
    intro he
    have := digitsFix_length w n
    rw [he] at this
    simp at this
    omega
  have hall : (digitsFix w n).all Char.isDigit = true :=
    List.all_eq_true.mpr fun c hc => digitsFix_all_digits w n c hc
  rw [pyIntQ?, if_pos ⟨hne, hall⟩, natOfDigits_digitsFix, Nat.mod_eq_of_lt h]

theorem pyFloatQ?_digitsFix {w₁ w₂ a b : ℕ} (hw₁ : 0 < w₁) (hw₂ : 0 < w₂)
    (ha : a < 10 ^ w₁) (hb : b < 10 ^ w₂) :
    pyFloatQ? (digitsFix w₁ a ++ '.' :: digitsFix w₂ b) =
      some ((a : ℚ) + (b : ℚ) / 10 ^ w₂) := by
  have hsplit : splitOnChar '.' (digitsFix w₁ a ++ '.' :: digitsFix w₂ b) =
      [digitsFix w₁ a, digitsFix w₂ b] := by
    rw [splitOnChar_append (digitsFix_ne_char (by decide)),
      splitOnChar_sepFree (digitsFix_ne_char (by decide))]
  have hall : (digitsFix w₁ a ++ digitsFix w₂ b).all Char.isDigit = true :=
    List.all_eq_true.mpr fun c hc => by
      rcases List.mem_append.mp hc with hc | hc
      · exact digitsFix_all_digits _ _ c hc
      · exact digitsFix_all_digits _ _ c hc
  have hne : digitsFix w₁ a ++ digitsFix w₂ b ≠ [] := by
    intro he
    have := congrArg List.length he
    rw [List.length_append, digitsFix_length, digitsFix_length] at this
    simp at this
    omega
  rw [pyFloatQ?, hsplit]
  simp only [hne, hall, and_true, ne_eq, not_false_iff, if_true, if_pos]
  rw [natOfDigits_digitsFix, natOfDigits_digitsFix, Nat.mod_eq_of_lt ha,
    Nat.mod_eq_of_lt hb, digitsFix_length]

theorem mapReplace_cons (a b c : Char) (l : List Char) :
    mapReplace a b (c :: l) = (if c = a then b else c) :: mapReplace a b l := rfl

theorem natDigits_eq_digitsFix_two {n : ℕ} (h1 : 10 ≤ n) (h2 : n < 100) :
    natDigits n = digitsFix 2 n := by
  obtain ⟨w, hw0, hlt, hge, heq⟩ := natDigits_spec n
  have hw2 : 2 ≤ w := by
    by_contra hc
    have : w = 1 := by omega
    subst this
    simp at hlt
    omega
  have hwle : w ≤ 2 := by
    by_contra hc
    push_neg at hc
    have : (10:ℕ) ^ 2 ≤ 10 ^ (w - 1) := Nat.pow_le_pow_right (by norm_num) (by omega)
    have := hge hw2
    norm_num at *
    omega
  have : w = 2 := by omega
  subst this
  exact heq

/-- Common shape of the three timedelta-based SRT timestamp pipelines on
a value whose fractional second part is a nonzero whole number of
milliseconds. -/
theorem srt_pipeline_shape {h m sec f : ℕ} (hh : h < 24) (hm : m < 60) (hsec : sec < 60)
    (hf : f < 1000000) (hf0 : f ≠ 0) (hfms : f % 1000 = 0) :
    mapReplace '.' ',' (dropLast3 (natDigits h ++ ':' :: padLeft 2 m ++ ':' :: padLeft 2 sec
        ++ (if f = 0 then [] else '.' :: padLeft 6 f))) =
      natDigits h ++ ':' :: digitsFix 2 m ++ ':' :: digitsFix 2 sec
        ++ ',' :: digitsFix 3 (f / 1000) := by
  have hpow2 : (10:ℕ) ^ 2 = 100 := by norm_num
  have hpow6 : (10:ℕ) ^ 6 = 1000000 := by norm_num
  have hm' : m < 10 ^ 2 := by rw [hpow2]; omega
  have hsec' : sec < 10 ^ 2 := by rw [hpow2]; omega
  have hf' : f < 10 ^ 6 := by rw [hpow6]; omega
  rw [if_neg hf0, padLeft_eq_digitsFix (by norm_num) hm',
    padLeft_eq_digitsFix (by norm_num) hsec', padLeft_eq_digitsFix (by norm_num) hf']
  have hassoc : natDigits h ++ ':' :: digitsFix 2 m ++ ':' :: digitsFix 2 sec
      ++ '.' :: digitsFix 6 f =
      (natDigits h ++ ':' :: digitsFix 2 m ++ ':' :: digitsFix 2 sec)
        ++ '.' :: digitsFix 6 f := by
    simp
  rw [hassoc]
  have hdrop : dropLast3 ((natDigits h ++ ':' :: digitsFix 2 m ++ ':' :: digitsFix 2 sec)
      ++ '.' :: digitsFix 6 f) =
      (natDigits h ++ ':' :: digitsFix 2 m ++ ':' :: digitsFix 2 sec)
        ++ '.' :: digitsFix 3 (f / 1000) := by
    unfold dropLast3
    have hlen : ((natDigits h ++ ':' :: digitsFix 2 m ++ ':' :: digitsFix 2 sec)
        ++ '.' :: digitsFix 6 f).length =
        (natDigits h ++ ':' :: digitsFix 2 m ++ ':' :: digitsFix 2 sec).length + 7 := by
      simp [digitsFix_length]
    rw [hlen]
    have h4 : (natDigits h ++ ':' :: digitsFix 2 m ++ ':' :: digitsFix 2 sec).length + 7 - 3 =
        (natDigits h ++ ':' :: digitsFix 2 m ++ ':' :: digitsFix 2 sec).length + 4 := by omega
    rw [h4, List.take_append 4]
    have : ('.' :: digitsFix 6 f).take 4 = '.' :: (digitsFix 6 f).take 3 := rfl
    rw [this]
    have h63 : (6:ℕ) = 3 + 3 := by norm_num
    rw [h63, digitsFix_take 3 3 f]
    norm_num
  rw [hdrop, mapReplace_append]
  have hnodot : ∀ c ∈ natDigits h ++ ':' :: digitsFix 2 m ++ ':' :: digitsFix 2 sec,
      c ≠ '.' := by
    intro c hc
    simp only [List.mem_append, List.mem_cons] at hc
    rcases hc with (hc | hc | hc) | hc | hc
    · exact natDigits_ne_char (by decide) c hc
    · subst hc; decide
    · exact digitsFix_ne_char (by decide) c hc
    · subst hc; decide
    · exact digitsFix_ne_char (by decide) c hc
  rw [mapReplace_of_not_mem hnodot, mapReplace_cons]
  rw [mapReplace_of_not_mem (digitsFix_ne_char (by decide))]
  simp

/-- Effect of the single-digit-hour fixup (`if len(start.split(':')[0]) == 1`)
on a string of the shape `str(hours) ++ ":" ++ rest`: the hour field ends
up zero padded to two digits. -/
theorem srt_pad_fix {h : ℕ} (hh : h < 100) (B : List Char) :
    (if ((splitOnChar ':' (natDigits h ++ ':' :: B)).headI).length = 1
      then '0' :: (natDigits h ++ ':' :: B) else natDigits h ++ ':' :: B) =
      digitsFix 2 h ++ ':' :: B := by
  have hsplit : splitOnChar ':' (natDigits h ++ ':' :: B) = natDigits h :: splitOnChar ':' B :=
    splitOnChar_append (natDigits_ne_char (by decide))
  rw [hsplit]
  by_cases h10 : h < 10
  · have hnd : natDigits h = [digitChar h] := natDigits_of_lt_ten h10
    have hfix : digitsFix 2 h = '0' :: digitsFix 1 h :=
      digitsFix_succ_of_lt (by simpa using h10)
    have hfix1 : digitsFix 1 h = [digitChar h] := by
      have : digitsFix 1 h = [digitChar (h % 10)] := by simp [digitsFix]
      rw [this, Nat.mod_eq_of_lt h10]
    rw [hnd, hfix, hfix1]
    simp [List.headI]
  · have hnd : natDigits h = digitsFix 2 h := natDigits_eq_digitsFix_two (by omega) hh
    rw [hnd]
    have : (digitsFix 2 h).length = 2 := digitsFix_length 2 h
    simp [List.headI, this]

theorem create_srt_file_timestamp_struct {us : ℕ} (hlt : us < 86400000000)
    (hms : us % 1000 = 0) (hfrac : us % 1000000 ≠ 0) :
    create_srt_file_timestamp us =
      digitsFix 2 (us / 1000000 / 3600) ++ ':' :: digitsFix 2 (us / 1000000 % 3600 / 60)
        ++ ':' :: digitsFix 2 (us / 1000000 % 60)
        ++ ',' :: digitsFix 3 (us % 1000000 / 1000) := by
  have hpipe := @srt_pipeline_shape (us / 1000000 / 3600) (us / 1000000 % 3600 / 60)
    (us / 1000000 % 60) (us % 1000000)
    (by omega) (by omega) (by omega) (by omega) hfrac (by omega)
  have hX : create_srt_file_timestamp us =
      (if ((splitOnChar ':' (mapReplace '.' ',' (dropLast3 (timedeltaRepr us)))).headI).length = 1
        then '0' :: mapReplace '.' ',' (dropLast3 (timedeltaRepr us))
        else mapReplace '.' ',' (dropLast3 (timedeltaRepr us))) := rfl
  have hT : timedeltaRepr us = natDigits (us / 1000000 / 3600)
      ++ ':' :: padLeft 2 (us / 1000000 % 3600 / 60) ++ ':' :: padLeft 2 (us / 1000000 % 60)
      ++ (if us % 1000000 = 0 then [] else '.' :: padLeft 6 (us % 1000000)) := rfl
  rw [hX, hT, hpipe]
  have hfix := srt_pad_fix (h := us / 1000000 / 3600) (by omega)
    (digitsFix 2 (us / 1000000 % 3600 / 60) ++ ':' :: digitsFix 2 (us / 1000000 % 60)
      ++ ',' :: digitsFix 3 (us % 1000000 / 1000))
  simp only [List.append_assoc, List.cons_append] at hfix ⊢
  exact hfix

theorem parse_srt_time_shape {h m sec ms : ℕ} (hh : h < 100) (hm : m < 100)
    (hsec : sec < 100) (hms : ms < 1000) :
    parse_srt_time (digitsFix 2 h ++ ':' :: digitsFix 2 m ++ ':' :: digitsFix 2 sec
        ++ ',' :: digitsFix 3 ms) =
      some ((h : ℚ) * 3600 + (m : ℚ) * 60 + ((sec : ℚ) + (ms : ℚ) / 10 ^ 3)) := by
  have hpow2 : (10:ℕ) ^ 2 = 100 := by norm_num
  have hpow3 : (10:ℕ) ^ 3 = 1000 := by norm_num
  have hh' : h < 10 ^ 2 := by rw [hpow2]; omega
  have hm' : m < 10 ^ 2 := by rw [hpow2]; omega
  have hsec' : sec < 10 ^ 2 := by rw [hpow2]; omega
  have hms' : ms < 10 ^ 3 := by rw [hpow3]; omega
  have hrepl : mapReplace ',' '.' (digitsFix 2 h ++ ':' :: digitsFix 2 m
      ++ ':' :: digitsFix 2 sec ++ ',' :: digitsFix 3 ms) =
      digitsFix 2 h ++ ':' :: digitsFix 2 m ++ ':' :: digitsFix 2 sec
        ++ '.' :: digitsFix 3 ms := by
    simp only [List.append_assoc, List.cons_append]
    rw [mapReplace_append, mapReplace_cons, mapReplace_append, mapReplace_cons,
      mapReplace_append, mapReplace_cons,
      mapReplace_of_not_mem (digitsFix_ne_char (by decide)),
      mapReplace_of_not_mem (digitsFix_ne_char (by decide)),
      mapReplace_of_not_mem (digitsFix_ne_char (by decide)),
      mapReplace_of_not_mem (digitsFix_ne_char (by decide))]
    simp
  have hsplit : splitOnChar ':' (digitsFix 2 h ++ ':' :: digitsFix 2 m
      ++ ':' :: digitsFix 2 sec ++ '.' :: digitsFix 3 ms) =
      [digitsFix 2 h, digitsFix 2 m, digitsFix 2 sec ++ '.' :: digitsFix 3 ms] := by
    simp only [List.append_assoc, List.cons_append]
    rw [splitOnChar_append (digitsFix_ne_char (by decide)),
      splitOnChar_append (digitsFix_ne_char (by decide)),
      splitOnChar_sepFree]
    intro c hc
    simp only [List.mem_append, List.mem_cons] at hc
    rcases hc with hc | hc | hc
    · exact digitsFix_ne_char (by decide) c hc
    · subst hc; decide
    · exact digitsFix_ne_char (by decide) c hc
  simp only [parse_srt_time]
  rw [hrepl, hsplit]
  simp only [pyIntQ?_digitsFix (by norm_num) hh', pyIntQ?_digitsFix (by norm_num) hm',
    pyFloatQ?_digitsFix (by norm_num) (by norm_num) hsec' hms', digitsFix_length]

theorem digitsFix_two_eq (n : ℕ) :
    digitsFix 2 n = [digitChar (n / 10 % 10), digitChar (n % 10)] := rfl

theorem digitsFix_three_eq (n : ℕ) :
    digitsFix 3 n = [digitChar (n / 10 / 10 % 10), digitChar (n / 10 % 10),
      digitChar (n % 10)] := rfl

/-- Decidable check that a string has exactly the shape `HH:MM:SS,mmm`:
two digits, `':'`, two digits, `':'`, two digits, `','`, three digits. -/
def matchesHMSms (l : List Char) : Bool :=
  match l with
  | [h1, h2, c1, m1, m2, c2, s1, s2, c3, d1, d2, d3] =>
    h1.isDigit && h2.isDigit && c1 = ':' && m1.isDigit && m2.isDigit && c2 = ':' &&
      s1.isDigit && s2.isDigit && c3 = ',' && d1.isDigit && d2.isDigit && d3.isDigit
  | _ => false

theorem matchesHMSms_shape (h m sec ms : ℕ) :
    matchesHMSms (digitsFix 2 h ++ ':' :: digitsFix 2 m ++ ':' :: digitsFix 2 sec
      ++ ',' :: digitsFix 3 ms) = true := by
  have hd : ∀ x : ℕ, (digitChar (x % 10)).isDigit = true :=
    fun x => isDigit_digitChar (Nat.mod_lt _ (by norm_num))
  rw [digitsFix_two_eq, digitsFix_two_eq, digitsFix_two_eq, digitsFix_three_eq]
  simp [matchesHMSms, hd]

/-- C1: the conversion used by `create_srt` / `create_srt_file` does NOT
round-trip at the boundary values 0 and 3600 named by the spec: for a
whole number of seconds `str(timedelta(...))` carries no `.ffffff` part,
so the `[:-3]` slice eats the seconds field; the results `"00:00"` and
`"01:00"` are not of the form `HH:MM:SS,mmm`, and `parse_srt_time`
raises (returns `none`) instead of returning the original value. -/
theorem claim_C1_counterexample :
    create_srt_file_timestamp 0 = pyStr "00:00" ∧
    parse_srt_time (create_srt_file_timestamp 0) = none ∧
    create_srt_file_timestamp 3600000000 = pyStr "01:00" ∧
    parse_srt_time (create_srt_file_timestamp 3600000000) = none ∧
    matchesHMSms (create_srt_file_timestamp 0) = false := by
  exact ⟨by decide, by decide, by decide, by decide, by decide⟩

/-- C1 (amended): for every duration below 24 hours whose microsecond
total `us` is a nonzero whole number of milliseconds within its second
(`us % 1000 = 0`, `us % 1000000 ≠ 0`), the timestamp written by
`create_srt_file` / `create_srt` is a zero-padded `HH:MM:SS,mmm` string
and `parse_srt_time` recovers exactly the original seconds value
`us / 10^6`.  (At whole seconds — including the spec's boundary values 0
and 3600 — the string is malformed and parsing fails, and sub-millisecond
fractions are truncated; see the counterexample.) -/
theorem claim_C1 {us : ℕ} (hlt : us < 86400000000)
    (hms : us % 1000 = 0) (hfrac : us % 1000000 ≠ 0) :
    matchesHMSms (create_srt_file_timestamp us) = true ∧
    parse_srt_time (create_srt_file_timestamp us) = some ((us : ℚ) / 1000000) := by
  rw [create_srt_file_timestamp_struct hlt hms hfrac]
  constructor
  · exact matchesHMSms_shape _ _ _ _
  · rw [parse_srt_time_shape (by omega) (by omega) (by omega) (by omega)]
    congr 1
    have key : us = 1000000 * (3600 * (us / 1000000 / 3600)
        + 60 * (us / 1000000 % 3600 / 60) + us / 1000000 % 60)
        + 1000 * (us % 1000000 / 1000) := by omega
    have keyQ : (us : ℚ) = 1000000 * (3600 * ((us / 1000000 / 3600 : ℕ) : ℚ)
        + 60 * ((us / 1000000 % 3600 / 60 : ℕ) : ℚ) + ((us / 1000000 % 60 : ℕ) : ℚ))
        + 1000 * ((us % 1000000 / 1000 : ℕ) : ℚ) := by
      exact_mod_cast congrArg (Nat.cast (R := ℚ)) key
    rw [keyQ]
    have h3 : ((10:ℚ)) ^ 3 = 1000 := by norm_num
    rw [h3]
    field_simp
    ring

/-- Witness for C1 at the spec's third boundary value 59.999 s
(microsecond total 59999000, which is what
`timedelta(seconds=59.999)` holds): the round trip is exact there. -/
theorem claim_C1_witness :
    (59999000 : ℕ) < 86400000000 ∧ (59999000 : ℕ) % 1000 = 0 ∧
    (59999000 : ℕ) % 1000000 ≠ 0 ∧
    matchesHMSms (create_srt_file_timestamp 59999000) = true ∧
    parse_srt_time (create_srt_file_timestamp 59999000) = some ((59999000 : ℚ) / 1000000) ∧
    tdMicros (59999 / 1000) = 59999000 ∧
    ((59999000 : ℚ) / 1000000) = 59999 / 1000 := by
  refine ⟨by norm_num, by norm_num, by norm_num,
    (claim_C1 (by norm_num) (by norm_num) (by norm_num)).1,
    (claim_C1 (by norm_num) (by norm_num) (by norm_num)).2, ?_, by norm_num⟩
  have he : (59999 : ℚ) / 1000 * 1000000 = ((59999000 : ℤ) : ℚ) := by norm_num
  rw [tdMicros, he]
  exact round_intCast 59999000

theorem pymod_eq_mul_fract {a n : ℚ} (h : n ≠ 0) : pymod a n = n * Int.fract (a / n) := by
  unfold pymod Int.fract
  field_simp

theorem pymod_nonneg {a n : ℚ} (h : 0 < n) : 0 ≤ pymod a n := by
  rw [pymod_eq_mul_fract (ne_of_gt h)]
  exact mul_nonneg (le_of_lt h) (Int.fract_nonneg _)

theorem pymod_lt {a n : ℚ} (h : 0 < n) : pymod a n < n := by
  rw [pymod_eq_mul_fract (ne_of_gt h)]
  calc n * Int.fract (a / n) < n * 1 := by
        exact mul_lt_mul_of_pos_left (Int.fract_lt_one _) h
    _ = n := mul_one n

theorem pymod_one (q : ℚ) : pymod q 1 = q - ⌊q⌋ := by
  simp [pymod]

theorem whisper_srt_timestamp_struct {q : ℚ} (h0 : 0 ≤ q) (hlt : q < 360000) :
    whisper_srt_timestamp q =
      digitsFix 2 (⌊q / 3600⌋.toNat) ++ ':' :: digitsFix 2 (⌊pymod q 3600 / 60⌋.toNat)
        ++ ':' :: digitsFix 2 (⌊pymod q 60⌋.toNat)
        ++ ',' :: digitsFix 3 (⌊pymod q 1 * 1000⌋.toNat) := by
  have hpow2 : (10:ℕ) ^ 2 = 100 := by norm_num
  have hpow3 : (10:ℕ) ^ 3 = 1000 := by norm_num
  have hh : ⌊q / 3600⌋.toNat < 10 ^ 2 := by
    rw [hpow2]
    have h1 : ⌊q / 3600⌋ < 100 := Int.floor_lt.mpr (by
      rw [div_lt_iff₀ (by norm_num : (0:ℚ) < 3600)]
      push_cast
      linarith)
    omega
  have hm : ⌊pymod q 3600 / 60⌋.toNat < 10 ^ 2 := by
    rw [hpow2]
    have h1 : ⌊pymod q 3600 / 60⌋ < 60 := Int.floor_lt.mpr (by
      rw [div_lt_iff₀ (by norm_num : (0:ℚ) < 60)]
      push_cast
      have := pymod_lt (a := q) (n := 3600) (by norm_num)
      linarith)
    omega
  have hs : ⌊pymod q 60⌋.toNat < 10 ^ 2 := by
    rw [hpow2]
    have h1 : ⌊pymod q 60⌋ < 60 := Int.floor_lt.mpr (by
      push_cast
      exact pymod_lt (by norm_num))
    omega
  have hms : ⌊pymod q 1 * 1000⌋.toNat < 10 ^ 3 := by
    rw [hpow3]
    have h1 : ⌊pymod q 1 * 1000⌋ < 1000 := Int.floor_lt.mpr (by
      push_cast
      have := pymod_lt (a := q) (n := 1) (by norm_num)
      linarith)
    omega
  unfold whisper_srt_timestamp
  rw [padLeft_eq_digitsFix (by norm_num) hh, padLeft_eq_digitsFix (by norm_num) hm,
    padLeft_eq_digitsFix (by norm_num) hs, padLeft_eq_digitsFix (by norm_num) hms]

/-- C9: for every non-negative seconds value below 100 hours, the
f-string formatter of `create_srt` in `transcribe_with_ffmpeg_path.py`
produces exactly an `HH:MM:SS,mmm` string with two-digit zero-padded
hour, minute and second fields and a three-digit millisecond field, the
milliseconds being the fractional part truncated (floored) to whole
milliseconds rather than rounded. -/
theorem claim_C9 {q : ℚ} (h0 : 0 ≤ q) (hlt : q < 360000) :
    matchesHMSms (whisper_srt_timestamp q) = true ∧
    whisper_srt_timestamp q =
      digitsFix 2 (⌊q / 3600⌋.toNat) ++ ':' :: digitsFix 2 (⌊pymod q 3600 / 60⌋.toNat)
        ++ ':' :: digitsFix 2 (⌊pymod q 60⌋.toNat)
        ++ ',' :: digitsFix 3 (⌊(q - ⌊q⌋) * 1000⌋.toNat) := by
  have hstruct := whisper_srt_timestamp_struct h0 hlt
  rw [pymod_one] at hstruct
  exact ⟨by rw [hstruct]; exact matchesHMSms_shape _ _ _ _, hstruct⟩

/-- Witness for C9 at 59.999 s and at 0 s. -/
theorem claim_C9_witness :
    (0:ℚ) ≤ 59999 / 1000 ∧ (59999:ℚ) / 1000 < 360000 ∧
    matchesHMSms (whisper_srt_timestamp (59999 / 1000)) = true ∧
    whisper_srt_timestamp 0 = pyStr "00:00:00,000" := by
  refine ⟨by norm_num, by norm_num,
    (claim_C9 (by norm_num) (by norm_num)).1, ?_⟩
  have h1 : ⌊(0:ℚ) / 3600⌋ = 0 := by norm_num
  have h2 : pymod 0 3600 = 0 := by simp [pymod]
  have h3 : pymod 0 60 = 0 := by simp [pymod]
  have h4 : pymod 0 1 = 0 := by simp [pymod]
  have h5 : ⌊(0:ℚ) / 60⌋ = 0 := by norm_num
  have h6 : ⌊(0:ℚ)⌋ = 0 := by norm_num
  have h7 : ⌊(0:ℚ) * 1000⌋ = 0 := by norm_num
  unfold whisper_srt_timestamp
  rw [h1, h2, h3, h4, h5, h6, h7]
  decide

/-- Record of a media file written by a clip-extraction call: the output
path and the source interval `[startT, endT]` the written clip covers.
The model produces such a record exactly when the real code reaches its
write call. -/
structure ClipWrite where
  path : List Char
  startT : ℚ
  endT : ℚ
deriving DecidableEq

/-- Model of `extract_clip` from `video_clip_with_captions.py` (lines 20-43): the
loaded video's duration is passed explicitly; a start time at or past
the duration prints an error and returns `None` (no file written),
otherwise the clip over `[start_time, min(start_time + duration,
videoDuration)]` is written and the output path returned. -/
def extract_clip (videoDuration start_time duration : ℚ)
    (output_path : List Char) : Option ClipWrite :=
  if start_time ≥ videoDuration then none
  else some ⟨output_path, start_time, min (start_time + duration) videoDuration⟩

/-- Result of `create_gif_from_video`: either a written GIF covering a
source interval, or process termination via `sys.exit`. -/
inductive GifResult
  | written (g : ClipWrite)
  | exited (code : ℕ)
deriving DecidableEq

/-- Model of `create_gif_from_video` from `video_to_gif.py` (lines 20-77).  The
whole body runs in a `try` whose handler prints the error and calls
`sys.exit(1)`; `loadOk` / `writeOk` describe whether the
`VideoFileClip` load and the `write_gif` call raise.  The in-range
`sys.exit(1)` for `start_time >= video.duration` is a `SystemExit`,
which `except Exception` does not catch. -/
def create_gif_from_video (loadOk : Bool) (videoDuration start_time duration : ℚ)
    (output_gif : List Char) (writeOk : Bool) : GifResult :=
  if ¬ loadOk then .exited 1
  else if start_time ≥ videoDuration then .exited 1
  else if ¬ writeOk then .exited 1
  else .written ⟨output_gif, start_time, min (start_time + duration) videoDuration⟩

/-- C2: for every video duration `D`, start `s < D` and requested
duration `d ≥ 0`, both `extract_clip` and `create_gif_from_video` (with
healthy external calls) succeed rather than erroring when `s + d`
exceeds `D`, writing a clip that covers exactly `[s, min (s + d) D]`. -/
theorem claim_C2 {D s d : ℚ} (hs : s < D) (hd : 0 ≤ d)
    (out₁ out₂ : List Char) :
    extract_clip D s d out₁ = some ⟨out₁, s, min (s + d) D⟩ ∧
    create_gif_from_video true D s d out₂ true =
      .written ⟨out₂, s, min (s + d) D⟩ := by
  have hns : ¬ s ≥ D := not_le.mpr hs
  exact ⟨by simp [extract_clip, hns], by simp [create_gif_from_video, hns]⟩

/-- Witness for C2: a 10-second video, start 3 s, requested duration
20 s; the clip end is clamped to 10 s. -/
theorem claim_C2_witness :
    (3:ℚ) < 10 ∧ (0:ℚ) ≤ 20 ∧
    extract_clip 10 3 20 (pyStr "temp_clip.mp4") =
      some ⟨pyStr "temp_clip.mp4", 3, 10⟩ ∧
    create_gif_from_video true 10 3 20 (pyStr "output.gif") true =
      .written ⟨pyStr "output.gif", 3, 10⟩ := by
  have h := claim_C2 (by norm_num : (3:ℚ) < 10) (by norm_num : (0:ℚ) ≤ 20)
    (pyStr "temp_clip.mp4") (pyStr "output.gif")
  have hmin : min ((3:ℚ) + 20) 10 = 10 := by norm_num
  rw [hmin] at h
  exact ⟨by norm_num, by norm_num, h.1, h.2⟩

/-- C3: a start time at or beyond the media duration is rejected:
`extract_clip` returns `None` (after printing an error) and
`create_gif_from_video` exits with status 1; in both models no
`ClipWrite` is produced, i.e. no output file is written. -/
theorem claim_C3 {D s d : ℚ} (hs : D ≤ s) (out₁ out₂ : List Char) (w : Bool) :
    extract_clip D s d out₁ = none ∧
    create_gif_from_video true D s d out₂ w = .exited 1 := by
  exact ⟨by simp [extract_clip, hs], by simp [create_gif_from_video, hs]⟩

/-- Witness for C3 at `s = D = 572` (the repo's example video length). -/
theorem claim_C3_witness :
    (572:ℚ) ≤ 572 ∧
    extract_clip 572 572 5 (pyStr "temp_clip.mp4") = none ∧
    create_gif_from_video true 572 572 5 (pyStr "output.gif") true = .exited 1 := by
  have h := claim_C3 (D := 572) (s := 572) (d := 5) (le_refl (572:ℚ))
    (pyStr "temp_clip.mp4") (pyStr "output.gif") true
  exact ⟨le_refl _, h.1, h.2⟩

/-- A transcription segment as consumed by the `create_srt` functions:
Whisper's `segment['start']`, `segment['end']`, `segment['text']`. -/
structure Segment where
  start : ℚ
  stop : ℚ
  text : List Char
deriving DecidableEq

/-- One SRT record as written by `create_srt`: the running index from
`enumerate(..., start=1)`, the segment's numeric times (serialized via
the timestamp formatters modelled above) and the stripped text. -/
structure SrtRecord where
  idx : ℕ
  start : ℚ
  stop : ℚ
  text : List Char
deriving DecidableEq

/-- Python's ASCII whitespace test (`str.strip()` default set). -/
def isPySpace (c : Char) : Bool :=
  c = ' ' || c = '\t' || c = '\n' || c = '\r' || c = Char.ofNat 11 || c = Char.ofNat 12

/-- Python's `str.strip()`. -/
def pyStrip (l : List Char) : List Char :=
  ((l.dropWhile isPySpace).reverse.dropWhile isPySpace).reverse

/-- Python's `enumerate(l, start=i)`. -/
def enumFrom {α : Type} : ℕ → List α → List (ℕ × α)
  | _, [] => []
  | i, a :: rest => (i, a) :: enumFrom (i + 1) rest

/-- Model of `create_srt` from `extract_audio_and_transcribe.py` (lines 34-56)
and `transcribe_with_ffmpeg_path.py` (lines 26-44), whose record-level
behaviour is identical (they differ only in the timestamp serialization
modelled separately): when the transcription dict has a `'segments'`
key, one record per segment is written, in order, indexed from 1, with
the text stripped; with no `'segments'` key nothing is written.
(`transcribe_and_caption.py`'s `create_srt` is the same loop without
the key guard.) -/
def create_srt (transcription : Option (List Segment)) : List SrtRecord :=
  match transcription with
  | none => []
  | some segs => (enumFrom 1 segs).map fun p => ⟨p.1, p.2.start, p.2.stop, pyStrip p.2.text⟩

theorem enumFrom_length {α : Type} (i : ℕ) (l : List α) :
    (enumFrom i l).length = l.length := by
  induction l generalizing i with
  | nil => rfl
  | cons a rest ih => simp [enumFrom, ih]

theorem enumFrom_map_fst {α : Type} (i : ℕ) (l : List α) :
    (enumFrom i l).map Prod.fst = List.range' i l.length := by
  induction l generalizing i with
  | nil => rfl
  | cons a rest ih => simp [enumFrom, List.range'_succ, ih]

theorem enumFrom_map_snd {α : Type} (i : ℕ) (l : List α) :
    (enumFrom i l).map Prod.snd = l := by
  induction l generalizing i with
  | nil => rfl
  | cons a rest ih => simp [enumFrom, ih]

/-- C4 (counterexample to the unconditional `start <= end` clause):
`create_srt` copies the segment times verbatim, so a transcription
result containing a segment with `start > end` yields a record with
`start > end`; no check or repair is performed. -/
theorem claim_C4_counterexample :
    create_srt (some [⟨1, 0, []⟩]) = [⟨1, 1, 0, []⟩] ∧ ¬ ((1:ℚ) ≤ 0) :=
  ⟨rfl, by norm_num⟩

/-- C4 (amended): `create_srt` writes exactly one record per segment, in
emission order, with consecutive indices starting at 1, copying each
segment's times unchanged (so no deduplication, merging or overlap
resolution); consequently `start <= end` holds for every written record
whenever it holds for every input segment (not unconditionally), and
the records are in non-decreasing start order whenever the segments
are. -/
theorem claim_C4 (t : Option (List Segment)) :
    (create_srt t).length = (t.getD []).length ∧
    (create_srt t).map SrtRecord.idx = List.range' 1 (t.getD []).length ∧
    (create_srt t).map (fun r => (r.start, r.stop)) =
      (t.getD []).map (fun s => (s.start, s.stop)) ∧
    (create_srt t).map SrtRecord.text = (t.getD []).map (fun s => pyStrip s.text) ∧
    ((∀ s ∈ t.getD [], s.start ≤ s.stop) → ∀ r ∈ create_srt t, r.start ≤ r.stop) ∧
    ((t.getD []).Pairwise (fun a b => a.start ≤ b.start) →
      (create_srt t).Pairwise (fun a b => a.start ≤ b.start)) := by
  cases t with
  | none => simp [create_srt]
  | some segs =>
    have hrecs : create_srt (some segs) =
        (enumFrom 1 segs).map fun p => (⟨p.1, p.2.start, p.2.stop, pyStrip p.2.text⟩ : SrtRecord) := rfl
    simp only [Option.getD_some]
    refine ⟨?_, ?_, ?_, ?_, ?_, ?_⟩
    · rw [hrecs]
      simp [enumFrom_length]
    · rw [hrecs, List.map_map]
      have : (SrtRecord.idx ∘ fun p : ℕ × Segment =>
          (⟨p.1, p.2.start, p.2.stop, pyStrip p.2.text⟩ : SrtRecord)) = Prod.fst := rfl
      rw [this, enumFrom_map_fst]
    · rw [hrecs, List.map_map]
      conv_rhs => rw [← enumFrom_map_snd 1 segs, List.map_map]
      rfl
    · rw [hrecs, List.map_map]
      conv_rhs => rw [← enumFrom_map_snd 1 segs, List.map_map]
      rfl
    · intro hall r hr
      rw [hrecs] at hr
      obtain ⟨p, hp, hpr⟩ := List.mem_map.mp hr
      have hsnd : p.2 ∈ segs := by
        rw [← enumFrom_map_snd 1 segs]
        exact List.mem_map.mpr ⟨p, hp, rfl⟩
      have := hall p.2 hsnd
      rw [← hpr]
      exact this
    · intro hp
      rw [hrecs, List.pairwise_map]
      rw [← enumFrom_map_snd 1 segs, List.pairwise_map] at hp
      exact hp

/-- Witness for C4 on a two-segment transcription with well-ordered
times. -/
theorem claim_C4_witness :
    (create_srt (some [⟨0, 1, pyStr " a "⟩, ⟨2, 3, pyStr "b"⟩])).map SrtRecord.idx =
      List.range' 1 2 ∧
    (∀ r ∈ create_srt (some [⟨0, 1, pyStr " a "⟩, ⟨2, 3, pyStr "b"⟩]),
      r.start ≤ r.stop) :=
  ⟨(claim_C4 (some [⟨0, 1, pyStr " a "⟩, ⟨2, 3, pyStr "b"⟩])).2.1,
   (claim_C4 (some [⟨0, 1, pyStr " a "⟩, ⟨2, 3, pyStr "b"⟩])).2.2.2.2.1 (by decide)⟩

/-- Exit behaviour of a script process: it falls off the end of the
module (exit code 0), calls `sys.exit(code)` / `exit(code)`, or dies of
an uncaught exception (the interpreter exits nonzero). -/
inductive ExitStatus
  | normal
  | exit (code : ℕ)
  | uncaught
deriving DecidableEq

/-- A status is a failure exit exactly when the process exit code is
nonzero. -/
def ExitStatus.isFailure : ExitStatus → Bool
  | .normal => false
  | .exit c => c != 0
  | .uncaught => true

/-- Result of `download_youtube_video` from `download_video.py` (lines
13-40): the downloaded file's path, or `sys.exit(1)` from the
`except Exception` handler after printing the error. -/
inductive DownloadResult
  | file (path : List Char)
  | exited (code : ℕ)
deriving DecidableEq

/-- Model of `download_youtube_video` with the yt-dlp call's outcome made
explicit. -/
def download_youtube_video (downloadOk : Bool) (outputFile : List Char) : DownloadResult :=
  if downloadOk then .file outputFile else .exited 1

/-- Pipeline stages of `transcribe_and_caption.py`'s `__main__` (lines
94-126) after the input-existence check. -/
inductive TCStage
  | transcribe
  | createSrt
  | burn
deriving DecidableEq

/-- Outcomes of the external calls made by `transcribe_and_caption.py`:
whether the input file exists, whether the Whisper call returns
(otherwise it raises), and whether `burn_subtitles_ffmpeg` returns a
path (it returns `None` on every ffmpeg failure it catches). -/
structure TCEnv where
  inputExists : Bool
  transcribeOk : Bool
  burnOk : Bool
deriving DecidableEq

/-- Model of the `__main__` block of `transcribe_and_caption.py` (lines 94-126): stages
executed, and the process exit status.  A missing input prints and
`exit(1)`; a Whisper exception propagates uncaught; after a
caption-burning failure the script prints a message (keeping the SRT
file) and falls off the end, exiting 0. -/
def transcribe_and_caption_main (e : TCEnv) : List TCStage × ExitStatus :=
  if ¬ e.inputExists then ([], .exit 1)
  else if ¬ e.transcribeOk then ([.transcribe], .uncaught)
  else ([.transcribe, .createSrt, .burn], .normal)

/-- Pipeline stages of `video_clip_with_captions.py`'s `main` (lines
186-218). -/
inductive VCStage
  | extract
  | transcribe
  | createSrt
  | captionFfmpeg
  | captionMoviepy
  | cleanup
deriving DecidableEq

/-- Outcomes of the external calls and flags of
`video_clip_with_captions.py`'s `main`. -/
structure VCEnv where
  extractOk : Bool
  noCaptions : Bool
  srtOnly : Bool
  methodFfmpeg : Bool
  transcribeOk : Bool
  ffmpegOk : Bool
  moviepyOk : Bool
deriving DecidableEq

/-- Model of `main` of `video_clip_with_captions.py` (lines 186-218): a `None`
from `extract_clip` yields `sys.exit(1)`; `--no-captions` and
`--srt-only` return early; with the ffmpeg method a
`CalledProcessError` falls back to the moviepy method inside
`add_subtitles_with_ffmpeg`; a moviepy exception propagates uncaught,
skipping the temp-file cleanup. -/
def video_clip_main (e : VCEnv) : List VCStage × ExitStatus :=
  if ¬ e.extractOk then ([.extract], .exit 1)
  else if e.noCaptions then ([.extract], .normal)
  else if ¬ e.transcribeOk then ([.extract, .transcribe], .uncaught)
  else if e.srtOnly then ([.extract, .transcribe, .createSrt], .normal)
  else if e.methodFfmpeg then
    if e.ffmpegOk then
      ([.extract, .transcribe, .createSrt, .captionFfmpeg, .cleanup], .normal)
    else if e.moviepyOk then
      ([.extract, .transcribe, .createSrt, .captionFfmpeg, .captionMoviepy, .cleanup], .normal)
    else ([.extract, .transcribe, .createSrt, .captionFfmpeg, .captionMoviepy], .uncaught)
  else
    if e.moviepyOk then
      ([.extract, .transcribe, .createSrt, .captionMoviepy, .cleanup], .normal)
    else ([.extract, .transcribe, .createSrt, .captionMoviepy], .uncaught)

/-- C5 (counterexample): in `transcribe_and_caption.py`, when the
caption-burning stage fails (and no second-tool fallback exists there —
`burn_subtitles_ffmpeg` only returns `None`), the script prints a
message and exits 0, not nonzero. -/
theorem claim_C5_counterexample :
    (transcribe_and_caption_main ⟨true, true, false⟩).2 = ExitStatus.normal ∧
    ExitStatus.normal.isFailure = false := by decide

/-- C5 (amended): a download error exits 1; every failure inside
`create_gif_from_video` exits 1; in `transcribe_and_caption.py` a
missing input exits 1 and a transcription exception kills the process
uncaught, but a caption-burning failure only prints a message and exits
0 (the SRT file is kept). -/
theorem claim_C5 :
    (∀ out : List Char, download_youtube_video false out = .exited 1) ∧
    (∀ (D s d : ℚ) (out : List Char) (w : Bool),
      create_gif_from_video false D s d out w = .exited 1) ∧
    (∀ (D s d : ℚ) (out : List Char), s < D →
      create_gif_from_video true D s d out false = .exited 1) ∧
    (∀ e : TCEnv, e.inputExists = false →
      transcribe_and_caption_main e = ([], .exit 1)) ∧
    (∀ e : TCEnv, e.inputExists = true → e.transcribeOk = false →
      transcribe_and_caption_main e = ([.transcribe], .uncaught)) ∧
    (∀ e : TCEnv, e.inputExists = true → e.transcribeOk = true → e.burnOk = false →
      transcribe_and_caption_main e = ([.transcribe, .createSrt, .burn], .normal)) := by
  refine ⟨fun out => rfl, fun D s d out w => rfl, ?_, ?_, ?_, ?_⟩
  · intro D s d out hs
    simp [create_gif_from_video, not_le.mpr hs]
  · intro e h
    simp [transcribe_and_caption_main, h]
  · intro e h1 h2
    simp [transcribe_and_caption_main, h1, h2]
  · intro e h1 h2 h3
    simp [transcribe_and_caption_main, h1, h2]

/-- Witness for C5 at concrete environments. -/
theorem claim_C5_witness :
    download_youtube_video false (pyStr "downloads/columbo_one_more_thing.mp4") = .exited 1 ∧
    create_gif_from_video true 10 3 2 (pyStr "output.gif") false = .exited 1 ∧
    transcribe_and_caption_main ⟨false, true, true⟩ = ([], .exit 1) ∧
    transcribe_and_caption_main ⟨true, false, true⟩ = ([.transcribe], .uncaught) :=
  ⟨claim_C5.1 _, claim_C5.2.2.1 10 3 2 _ (by norm_num),
   claim_C5.2.2.2.1 ⟨false, true, true⟩ rfl,
   claim_C5.2.2.2.2.1 ⟨true, false, true⟩ rfl rfl⟩

/-- C6: in both modelled multi-stage scripts, once a stage has failed no
subsequent stage executes and the process terminates (with the exits
proven in C5's amended statement); in particular a failed extraction
stops the pipeline before transcription, a Whisper exception stops it
before SRT creation and captioning, and a fatal captioning failure
skips the cleanup stage. -/
theorem claim_C6 :
    (∀ e : TCEnv, e.inputExists = false → transcribe_and_caption_main e = ([], .exit 1)) ∧
    (∀ e : TCEnv, e.transcribeOk = false →
      TCStage.createSrt ∉ (transcribe_and_caption_main e).1 ∧
      TCStage.burn ∉ (transcribe_and_caption_main e).1 ∧
      (e.inputExists = true → (transcribe_and_caption_main e).2 = .uncaught)) ∧
    (∀ e : VCEnv, e.extractOk = false → video_clip_main e = ([.extract], .exit 1)) ∧
    (∀ e : VCEnv, e.transcribeOk = false →
      VCStage.createSrt ∉ (video_clip_main e).1 ∧
      VCStage.captionFfmpeg ∉ (video_clip_main e).1 ∧
      VCStage.captionMoviepy ∉ (video_clip_main e).1 ∧
      VCStage.cleanup ∉ (video_clip_main e).1) ∧
    (∀ e : VCEnv, e.moviepyOk = false →
      (e.methodFfmpeg = false ∨ e.ffmpegOk = false) →
      VCStage.cleanup ∉ (video_clip_main e).1 ∧
      ((video_clip_main e).2 = .normal →
        VCStage.captionMoviepy ∉ (video_clip_main e).1)) := by
  refine ⟨?_, ?_, ?_, ?_, ?_⟩
  · intro e
    obtain ⟨a, b, c⟩ := e
    cases a <;> cases b <;> cases c <;> decide
  · intro e
    obtain ⟨a, b, c⟩ := e
    cases a <;> cases b <;> cases c <;> decide
  · intro e
    obtain ⟨a, b, c, d, f, g, h⟩ := e
    cases a <;> cases b <;> cases c <;> cases d <;> cases f <;> cases g <;> cases h <;> decide
  · intro e
    obtain ⟨a, b, c, d, f, g, h⟩ := e
    cases a <;> cases b <;> cases c <;> cases d <;> cases f <;> cases g <;> cases h <;> decide
  · intro e
    obtain ⟨a, b, c, d, f, g, h⟩ := e
    cases a <;> cases b <;> cases c <;> cases d <;> cases f <;> cases g <;> cases h <;> decide

/-- Witness for C6 at concrete environments. -/
theorem claim_C6_witness :
    transcribe_and_caption_main ⟨false, true, true⟩ = ([], .exit 1) ∧
    TCStage.createSrt ∉ (transcribe_and_caption_main ⟨true, false, true⟩).1 ∧
    video_clip_main ⟨false, false, false, true, true, true, true⟩ = ([.extract], .exit 1) ∧
    VCStage.cleanup ∉ (video_clip_main ⟨true, false, false, true, true, false, false⟩).1 :=
  ⟨claim_C6.1 ⟨false, true, true⟩ rfl,
   (claim_C6.2.1 ⟨true, false, true⟩ rfl).1,
   claim_C6.2.2.1 ⟨false, false, false, true, true, true, true⟩ rfl,
   (claim_C6.2.2.2.2 ⟨true, false, false, true, true, false, false⟩ rfl (Or.inr rfl)).1⟩

/-- Outcome of the ffmpeg subprocess in `add_subtitles_with_ffmpeg`
(`video_clip_with_captions.py` lines 146-164): success, a
`CalledProcessError` (the only exception its `except` clause catches),
or any other exception (e.g. `FileNotFoundError`), which propagates. -/
inductive FfmpegOutcome
  | ok
  | calledProcessError
  | otherRaise
deriving DecidableEq

/-- External-call outcomes for the two caption-burning methods. -/
structure CapEnv where
  ffmpeg : FfmpegOutcome
  moviepyOk : Bool
deriving DecidableEq

/-- Result of a caption-burning call: the returned output path, or a
propagated exception. -/
inductive CapResult
  | path (p : List Char)
  | raised
deriving DecidableEq

/-- Model of `add_subtitles_to_video` from `video_clip_with_captions.py` (lines
81-133): parses the SRT file, composites text clips and writes
`output_path`, returning it; any moviepy failure raises. -/
def add_subtitles_to_video (e : CapEnv) (video srt output : List Char) : CapResult :=
  if e.moviepyOk then .path output else .raised

/-- Model of `add_subtitles_with_ffmpeg` from `video_clip_with_captions.py`
(lines 146-164).  The second component records whether the moviepy
fallback was invoked. -/
def add_subtitles_with_ffmpeg (e : CapEnv) (video srt output : List Char) :
    CapResult × Bool :=
  match e.ffmpeg with
  | .ok => (.path output, false)
  | .calledProcessError => (add_subtitles_to_video e video srt output, true)
  | .otherRaise => (.raised, false)

/-- C7: if the ffmpeg subprocess raises `CalledProcessError`,
`add_subtitles_with_ffmpeg` invokes `add_subtitles_to_video` on the same
video path, SRT path and output path and returns that method's result;
if the subprocess succeeds it returns the output path without invoking
the fallback. -/
theorem claim_C7 (e : CapEnv) (video srt output : List Char) :
    (e.ffmpeg = .calledProcessError →
      add_subtitles_with_ffmpeg e video srt output =
        (add_subtitles_to_video e video srt output, true)) ∧
    (e.ffmpeg = .ok →
      add_subtitles_with_ffmpeg e video srt output = (.path output, false)) := by
  constructor <;> intro h <;> simp [add_subtitles_with_ffmpeg, h]

/-- Witness for C7 at concrete environments and paths. -/
theorem claim_C7_witness :
    add_subtitles_with_ffmpeg ⟨.calledProcessError, true⟩ (pyStr "temp_clip.mp4")
        (pyStr "captions.srt") (pyStr "output_with_captions.mp4") =
      (add_subtitles_to_video ⟨.calledProcessError, true⟩ (pyStr "temp_clip.mp4")
        (pyStr "captions.srt") (pyStr "output_with_captions.mp4"), true) ∧
    add_subtitles_with_ffmpeg ⟨.ok, true⟩ (pyStr "temp_clip.mp4")
        (pyStr "captions.srt") (pyStr "output_with_captions.mp4") =
      (.path (pyStr "output_with_captions.mp4"), false) :=
  ⟨(claim_C7 ⟨.calledProcessError, true⟩ (pyStr "temp_clip.mp4") (pyStr "captions.srt")
      (pyStr "output_with_captions.mp4")).1 rfl,
   (claim_C7 ⟨.ok, true⟩ (pyStr "temp_clip.mp4") (pyStr "captions.srt")
      (pyStr "output_with_captions.mp4")).2 rfl⟩

/-- Input URL selected by `download_video.py`'s `__main__` (lines
43-48): the literal constant on line 44, taken regardless of the
command line (the script reads no arguments). -/
def download_video_main_url (argv : List (List Char)) : List Char :=
  pyStr "https://www.youtube.com/watch?v=QxBnaMGP2aY"

/-- Input video path selected by `extract_audio_and_transcribe.py`'s
`__main__` (lines 96-113): the literal constant `"columbo_clip.mp4"`,
regardless of the command line. -/
def extract_audio_main_video (argv : List (List Char)) : List Char :=
  pyStr "columbo_clip.mp4"

/-- The shared positional argument layout `VIDEO START DURATION` parsed
by `argparse` in `video_clip_with_captions.py` (`main`, lines 167-184)
and `video_to_gif.py`: the three leading positional arguments of
`sys.argv[1:]` (option flags omitted from the model); fewer arguments
make argparse error out. -/
def parse_video_start_duration (argv : List (List Char)) :
    Option (List Char × List Char × List Char) :=
  match argv with
  | v :: s :: d :: _ => some (v, s, d)
  | _ => none

/-- C8 (counterexample): `download_video.py` fixes its input URL and
`extract_audio_and_transcribe.py` its input media path independently of
the command line: two different command lines yield the same hardcoded
inputs. -/
theorem claim_C8_counterexample :
    download_video_main_url [pyStr "https://example.com/a"] =
      download_video_main_url [pyStr "https://example.com/b"] ∧
    download_video_main_url [pyStr "https://example.com/a"] =
      pyStr "https://www.youtube.com/watch?v=QxBnaMGP2aY" ∧
    pyStr "https://example.com/a" ≠ pyStr "https://example.com/b" ∧
    extract_audio_main_video [pyStr "other.mp4"] = pyStr "columbo_clip.mp4" ∧
    extract_audio_main_video [] = pyStr "columbo_clip.mp4" :=
  ⟨rfl, rfl, by decide, rfl, rfl⟩

/-- C8 (amended): `video_clip_with_captions.py` and `video_to_gif.py`
take their input path, start time and duration from positional
command-line arguments, but `download_video.py` and
`extract_audio_and_transcribe.py` (like the other transcription
variants) fix their input URL / media path as in-file constants
independent of the command line. -/
theorem claim_C8 :
    (∀ argv, download_video_main_url argv =
      pyStr "https://www.youtube.com/watch?v=QxBnaMGP2aY") ∧
    (∀ argv, extract_audio_main_video argv = pyStr "columbo_clip.mp4") ∧
    (∀ (v s d : List Char) (rest : List (List Char)),
      parse_video_start_duration (v :: s :: d :: rest) = some (v, s, d)) ∧
    parse_video_start_duration [] = none :=
  ⟨fun _ => rfl, fun _ => rfl, fun _ _ _ _ => rfl, rfl⟩

/-- Literal-prefix test on character lists (used to model regex literal
parts and `str.startswith`). -/
def startsWithChars : List Char → List Char → Bool
  | [], _ => true
  | _ :: _, [] => false
  | p :: ps, c :: cs => p = c && startsWithChars ps cs

/-- Index of the first occurrence of `pat` as a contiguous substring of
`l` (used for lazy `.*?` matching and Python's `in`). -/
def findSub (pat : List Char) : List Char → Option ℕ
  | [] => if startsWithChars pat [] then some 0 else none
  | c :: rest =>
    if startsWithChars pat (c :: rest) then some 0
    else (findSub pat rest).map (fun i => i + 1)

/-- Python's `pat in s` substring test. -/
def containsSub (pat l : List Char) : Bool := (findSub pat l).isSome

/-- Index of the last occurrence of a character in `l`. -/
def lastIdxOf (x : Char) (l : List Char) : Option ℕ :=
  match l.reverse.findIdx? (fun c => c = x) with
  | some k => some (l.length - 1 - k)
  | none => none

/-- Match of the regex `format:\s*\n\s*revealjs:.*?\n---` (compiled
with `re.DOTALL`) anchored at the head of `l`, returning the length of
the match.  Because `revealjs:` begins with a non-whitespace character,
the backtracking semantics collapse to: the literal `format:`, then a
maximal whitespace run containing at least one newline, then the
literal `revealjs:`, then — lazily — everything up to and including the
first following `\n---`. -/
def yamlMatchAt (l : List Char) : Option ℕ :=
  if startsWithChars (pyStr "format:") l then
    let rest := l.drop 7
    let w := rest.takeWhile isPySpace
    let rest2 := rest.drop w.length
    if w.contains '\n' && startsWithChars (pyStr "revealjs:") rest2 then
      match findSub (pyStr "\n---") (rest2.drop 9) with
      | some i => some (7 + w.length + 9 + i + 4)
      | none => none
    else none
  else none

/-- Match of the regex `(\s*revealjs:\s*\n)` anchored at the head of
`l`: a maximal whitespace run, the literal `revealjs:`, then whitespace
up to and including the last newline of the following maximal
whitespace run (greedy `\s*` backtracking to the required `\n`). -/
def revealjsMatchAt (l : List Char) : Option ℕ :=
  let w1 := l.takeWhile isPySpace
  let r1 := l.drop w1.length
  if startsWithChars (pyStr "revealjs:") r1 then
    let w2 := (r1.drop 9).takeWhile isPySpace
    match lastIdxOf '\n' w2 with
    | some j => some (w1.length + 9 + j + 1)
    | none => none
  else none

/-- Match of the regex `width:\s*\d+` anchored at the head of `l`. -/
def widthMatchAt (l : List Char) : Option ℕ :=
  if startsWithChars (pyStr "width:") l then
    let w := (l.drop 6).takeWhile isPySpace
    let ds := ((l.drop 6).drop w.length).takeWhile Char.isDigit
    if ds.isEmpty then none else some (6 + w.length + ds.length)
  else none

/-- Match of the regex `height:\s*\d+` anchored at the head of `l`. -/
def heightMatchAt (l : List Char) : Option ℕ :=
  if startsWithChars (pyStr "height:") l then
    let w := (l.drop 7).takeWhile isPySpace
    let ds := ((l.drop 7).drop w.length).takeWhile Char.isDigit
    if ds.isEmpty then none else some (7 + w.length + ds.length)
  else none

/-- Leftmost match of an anchored matcher: the start index and length
of the first match, scanning left to right as `re` does. -/
def firstMatchPos (m : List Char → Option ℕ) : List Char → Option (ℕ × ℕ)
  | [] => (m []).map (fun n => (0, n))
  | c :: rest =>
    match m (c :: rest) with
    | some n => some (0, n)
    | none => (firstMatchPos m rest).map (fun p => (p.1 + 1, p.2))

/-- Python's `re.sub(pattern, repl, s)`: replace every non-overlapping
match, scanning left to right; `repl` receives the matched substring.
Every pattern used here only produces nonempty matches, so resuming
after `max n 1` characters agrees with `re`; the fuel (`length + 1` at
every call site) always suffices. -/
def subAllFun (m : List Char → Option ℕ) (repl : List Char → List Char) :
    ℕ → List Char → List Char
  | 0, l => l
  | fuel + 1, l =>
    match firstMatchPos m l with
    | none => l
    | some (i, n) =>
      l.take i ++ repl ((l.drop i).take n) ++ subAllFun m repl fuel (l.drop (i + max n 1))

/-- Model of `replace_format` from `create-versions.py` (lines 28-42)
and the identical `create-github-pages.py` (lines 29-43): receives the
captured group (the YAML block without the trailing `\n---`),
overwrites any `width:` / `height:` settings with 1280 / 720 or appends
them, and restores the `\n---`. -/
def replace_format (yaml_content : List Char) : List Char :=
  let g1 := if containsSub (pyStr "width:") yaml_content then
      subAllFun widthMatchAt (fun _ => pyStr "width: 1280")
        (yaml_content.length + 1) yaml_content
    else yaml_content ++ pyStr "\n    width: 1280"
  let g2 := if containsSub (pyStr "height:") g1 then
      subAllFun heightMatchAt (fun _ => pyStr "height: 720") (g1.length + 1) g1
    else g1 ++ pyStr "\n    height: 720"
  g2 ++ pyStr "\n---"

/-- Content transformation of `create_16x9_version`
(`create-versions.py` lines 12-59; `create-github-pages.py` lines 13-60
contains the identical function): substitute the YAML
`format:` / `revealjs:` block via `replace_format` (the match includes
the trailing `\n---`, the group excludes it); if that left the content
unchanged, insert width/height lines after a bare `revealjs:` line. -/
def create_16x9_newContent (content : List Char) : List Char :=
  let after1 := subAllFun yamlMatchAt
    (fun matched => replace_format (matched.take (matched.length - 4)))
    (content.length + 1) content
  if after1 = content then
    subAllFun revealjsMatchAt
      (fun matched => matched ++ pyStr "    width: 1280\n    height: 720\n")
      (content.length + 1) content
  else after1

/-- File-system effect of `create_16x9_version`: read `index.qmd`
(missing: print an error, return `False`, write nothing), write only
`index-16x9.qmd`, return `True`. -/
def create_16x9_version (fs : List Char → Option (List Char)) :
    (List Char → Option (List Char)) × Bool :=
  match fs (pyStr "index.qmd") with
  | none => (fs, false)
  | some content =>
    (fun p => if p = pyStr "index-16x9.qmd" then some (create_16x9_newContent content)
      else fs p, true)

/-- C10: `create_16x9_version` reads `index.qmd` and writes only
`index-16x9.qmd`, leaving `index.qmd` (and every other path) unchanged;
and when neither the YAML `format:`/`revealjs:` block pattern nor the
bare `revealjs:` line pattern matches anywhere in the content, the
content written to `index-16x9.qmd` is identical to the original, with
no width or height settings injected. -/
theorem claim_C10 (fs : List Char → Option (List Char)) (content : List Char)
    (hread : fs (pyStr "index.qmd") = some content) :
    (create_16x9_version fs).1 (pyStr "index.qmd") = some content ∧
    (∀ p, p ≠ pyStr "index-16x9.qmd" → (create_16x9_version fs).1 p = fs p) ∧
    (create_16x9_version fs).2 = true ∧
    (firstMatchPos yamlMatchAt content = none →
      firstMatchPos revealjsMatchAt content = none →
      (create_16x9_version fs).1 (pyStr "index-16x9.qmd") = some content) := by
  have hver : create_16x9_version fs =
      (fun p => if p = pyStr "index-16x9.qmd" then some (create_16x9_newContent content)
        else fs p, true) := by
    unfold create_16x9_version
    rw [hread]
  rw [hver]
  have hne : ¬ (pyStr "index.qmd" = pyStr "index-16x9.qmd") := by decide
  refine ⟨?_, ?_, rfl, ?_⟩
  · simp only [if_neg hne]
    exact hread
  · intro p hp
    simp only [if_neg hp]
  · intro h1 h2
    have s1 : subAllFun yamlMatchAt
        (fun matched => replace_format (matched.take (matched.length - 4)))
        (content.length + 1) content = content := by
      rw [subAllFun, h1]
    have s2 : subAllFun revealjsMatchAt
        (fun matched => matched ++ pyStr "    width: 1280\n    height: 720\n")
        (content.length + 1) content = content := by
      rw [subAllFun, h2]
    have hnew : create_16x9_newContent content = content := by
      unfold create_16x9_newContent
      rw [s1, if_pos rfl, s2]
    simp [hnew]

/-- Sample file system instantiating C10 with a content that neither
pattern matches. -/
def sampleFS : List Char → Option (List Char) :=
  fun p => if p = pyStr "index.qmd" then some (pyStr "hello\n") else none

/-- Witness for C10 on `sampleFS`. -/
theorem claim_C10_witness :
    sampleFS (pyStr "index.qmd") = some (pyStr "hello\n") ∧
    firstMatchPos yamlMatchAt (pyStr "hello\n") = none ∧
    firstMatchPos revealjsMatchAt (pyStr "hello\n") = none ∧
    (create_16x9_version sampleFS).1 (pyStr "index.qmd") = some (pyStr "hello\n") ∧
    (create_16x9_version sampleFS).1 (pyStr "index-16x9.qmd") = some (pyStr "hello\n") ∧
    (create_16x9_version sampleFS).1 (pyStr "other.qmd") = none := by
  refine ⟨rfl, by decide, by decide,
    (claim_C10 sampleFS (pyStr "hello\n") rfl).1,
    (claim_C10 sampleFS (pyStr "hello\n") rfl).2.2.2 (by decide) (by decide), ?_⟩
  rw [(claim_C10 sampleFS (pyStr "hello\n") rfl).2.1 (pyStr "other.qmd") (by decide)]
  rfl
